import Mathlib

/-!
Shallow embedding of the fakestore-app client code and verification of its
specification.

Embedded code:
* the products screen memos `categories` and `filteredAndSorted`
  (filter by category chip and search text, then sort by the selected key);
* the API module `request` wrapper with its 12-second abort timer, and the
  operations `getProducts` and `getProductById` built on it;
* the product-detail screen: the `id` route-parameter memo, the guard at the
  top of `load`, and the similar-products list.

Modelling conventions.  JavaScript strings are Lean `String`; the methods
`toLowerCase`, `trim`, `includes` and `localeCompare` are modelled as
structural functions over the underlying character list, with
`localeCompare` in the default locale modelled as code-point lexicographic
comparison and `toLowerCase` as per-character ASCII lowering.
`Array.prototype.sort`, which ECMAScript requires to be stable and whose
output is fully determined when the comparator is consistent, is modelled as
`List.insertionSort` over the relation `cmp a b ≤ 0` (insertion sort is
stable, so it is extensionally the required sort).  The `price` field is
modelled as an integer: a well-formed JavaScript number.  Optional `title`
and `description` fields are `Option String`, mirroring the code sites that
guard them with a nullish-coalescing empty-string fallback.
-/

namespace FakeStore

/-- JavaScript `toLowerCase`, modelled per character (ASCII case mapping). -/
def lowerChars (cs : List Char) : List Char := cs.map Char.toLower

/-- Whitespace recognised by the model of JavaScript `trim`. -/
def isWS (c : Char) : Bool := c == ' ' || c == '\t' || c == '\n' || c == '\r'

/-- JavaScript `String.prototype.trim`: strip leading and trailing whitespace. -/
def trimChars (cs : List Char) : List Char :=
  ((cs.dropWhile isWS).reverse.dropWhile isWS).reverse

/-- JavaScript `String.prototype.includes`: the needle occurs contiguously in
the haystack (the empty needle always occurs). -/
def infixChars : List Char → List Char → Bool
  | needle, [] => needle.isEmpty
  | needle, c :: t => needle.isPrefixOf (c :: t) || infixChars needle t

/-- Code-point comparison of two character lists: negative, zero or positive,
modelling `localeCompare` in the default locale. -/
def cmpChars : List Char → List Char → Int
  | [], [] => 0
  | [], _ :: _ => -1
  | _ :: _, [] => 1
  | a :: as, b :: bs => if a < b then -1 else if b < a then 1 else cmpChars as bs

/-- JavaScript `s.toLowerCase()`. -/
def jsLower (s : String) : String := String.mk (lowerChars s.data)

/-- JavaScript `s.trim()`. -/
def jsTrim (s : String) : String := String.mk (trimChars s.data)

/-- JavaScript `hay.includes(needle)`. -/
def jsIncludes (hay needle : String) : Bool := infixChars needle.data hay.data

/-- JavaScript `a.localeCompare(b)` (default locale, modelled as code-point
lexicographic comparison). -/
def localeCompare (a b : String) : Int := cmpChars a.data b.data

/-- A catalog item as the screens use it.  `title` and `description` are
optional (every use site guards them with an empty-string fallback);
`category` is a plain string, where the empty string behaves as absent
because the code tests it for truthiness; `price` is a well-formed number,
modelled as an integer. -/
structure Product where
  id : Int
  title : Option String
  description : Option String
  category : String
  price : Int
deriving DecidableEq, Repr

/-- The `SortKey` union type of the products screen. -/
inductive SortKey where
  | none
  | price_asc
  | price_desc
  | title_asc
  | title_desc
deriving DecidableEq, Repr

/-- The user-selected query state of the products screen: search text,
selected category chip (sentinel `"All"`), and sort key. -/
structure Criteria where
  text : String
  category : String
  sortKey : SortKey
deriving DecidableEq, Repr

/-- Category conjunct of the filter predicate inside `filteredAndSorted`:
the ternary testing the sentinel, then strict equality with the category. -/
def matchesCategory (category : String) (p : Product) : Bool :=
  category == "All" || p.category == category

/-- Text conjunct of the filter predicate inside `filteredAndSorted`, where
`q` is the trimmed and lowercased search text:
`q.length === 0 ? true : hayTitle.includes(q) || hayDesc.includes(q)`. -/
def matchesQuery (q : String) (p : Product) : Bool :=
  q.length == 0 || jsIncludes (jsLower (p.title.getD "")) q
    || jsIncludes (jsLower (p.description.getD "")) q

/-- The filter stage of `filteredAndSorted` (the `base` constant in the
source): trim and lowercase the query, then keep the items matching both
conjuncts. -/
def filteredBase (products : List Product) (c : Criteria) : List Product :=
  let q := jsLower (jsTrim c.text)
  products.filter (fun p => matchesCategory c.category p && matchesQuery q p)

/-- Comparator of the `price_asc` branch: `Number(a.price) - Number(b.price)`. -/
def cmpPriceAsc (a b : Product) : Int := a.price - b.price

/-- Comparator of the `price_desc` branch: `Number(b.price) - Number(a.price)`. -/
def cmpPriceDesc (a b : Product) : Int := b.price - a.price

/-- Comparator of the `title_asc` branch: `localeCompare` on the titles with
empty-string fallback. -/
def cmpTitleAsc (a b : Product) : Int :=
  localeCompare (a.title.getD "") (b.title.getD "")

/-- Comparator of the `title_desc` branch: `localeCompare` with the arguments
swapped. -/
def cmpTitleDesc (a b : Product) : Int :=
  localeCompare (b.title.getD "") (a.title.getD "")

/-- JavaScript `arr.sort(cmp)` for a consistent comparator: the stable sort
determined by the non-strict order `cmp a b ≤ 0`, modelled as insertion
sort. -/
def jsSortBy (cmp : Product → Product → Int) (l : List Product) : List Product :=
  l.insertionSort (fun a b => cmp a b ≤ 0)

/-- The `filteredAndSorted` memo of the products screen: filter, copy, then
switch on the sort key (the `default` branch leaves the filtered order). -/
def filteredAndSorted (products : List Product) (c : Criteria) : List Product :=
  let base := filteredBase products c
  match c.sortKey with
  | SortKey.none => base
  | SortKey.price_asc => jsSortBy cmpPriceAsc base
  | SortKey.price_desc => jsSortBy cmpPriceDesc base
  | SortKey.title_asc => jsSortBy cmpTitleAsc base
  | SortKey.title_desc => jsSortBy cmpTitleDesc base

/-- One insertion into the JavaScript `Set` of category values: sets preserve
first-occurrence insertion order and ignore repeats. -/
def addCat (acc : List String) (c : String) : List String :=
  if c ∈ acc then acc else acc ++ [c]

/-- The `Set` accumulated by the `categories` memo: distinct truthy
`category` values of the products, in first-occurrence order. -/
def categorySet (products : List Product) : List String :=
  products.foldl (fun acc p => if p.category = "" then acc else addCat acc p.category) []

/-- The `categories` memo: the distinct non-empty category values, sorted
with `localeCompare`, behind the `"All"` sentinel. -/
def categories (products : List Product) : List String :=
  "All" :: (categorySet products).insertionSort (fun a b => localeCompare a b ≤ 0)

/-- Similar-products list of the detail screen:
`list.filter((p) => p.id !== product.id).slice(0, 12)`. -/
def similarList (list : List Product) (productId : Int) : List Product :=
  (list.filter (fun p => p.id != productId)).take 12

/-- Value of a run of decimal digits. -/
def decDigitsVal (ds : List Char) : Nat :=
  ds.foldl (fun n c => n * 10 + (c.toNat - 48)) 0

/-- Hexadecimal digit recognised by JavaScript numeric literals. -/
def isHexDigitJS (c : Char) : Bool :=
  c.isDigit || (97 ≤ c.toNat && c.toNat ≤ 102) || (65 ≤ c.toNat && c.toNat ≤ 70)

/-- Octal digit. -/
def isOctDigitJS (c : Char) : Bool := 48 ≤ c.toNat && c.toNat ≤ 55

/-- Binary digit. -/
def isBinDigitJS (c : Char) : Bool := c.toNat == 48 || c.toNat == 49

/-- Value of one digit in any radix up to 16. -/
def hexDigitVal (c : Char) : Nat :=
  if c.isDigit then c.toNat - 48
  else if 97 ≤ c.toNat then c.toNat - 87
  else c.toNat - 55

/-- Value of a run of digits in the given radix. -/
def radixDigitsVal (r : Nat) (ds : List Char) : Nat :=
  ds.foldl (fun n c => n * r + hexDigitVal c) 0

/-- Scale a significand by a signed power of ten. -/
def applyExp (m : Rat) (e : Int) : Rat :=
  if 0 ≤ e then m * (10 : ℚ) ^ e.toNat else m / (10 : ℚ) ^ (-e).toNat

/-- Exponent tail of a decimal numeral: empty means exponent `0`; otherwise
`e` or `E`, an optional sign, and at least one digit consuming the whole
remainder; anything else is NaN. -/
def parseExponent : List Char → Option Int
  | [] => some 0
  | e :: rest =>
    if e == 'e' || e == 'E' then
      let signExp : Int × List Char :=
        match rest with
        | '+' :: r => (1, r)
        | '-' :: r => (-1, r)
        | r => (1, r)
      if signExp.2 ≠ [] ∧ signExp.2.all Char.isDigit = true then
        some (signExp.1 * Int.ofNat (decDigitsVal signExp.2))
      else Option.none
    else Option.none

/-- The unsigned decimal numeral forms of the `Number(string)` grammar,
`Infinity` excepted: digits, digits dot digits, dot digits, each with an
optional exponent part; the whole remainder must be consumed.  Returns the
exact rational value, or `none` for NaN. -/
def parseDecimal (cs : List Char) : Option Rat :=
  let intPart := cs.takeWhile Char.isDigit
  let rest1 := cs.dropWhile Char.isDigit
  match rest1 with
  | '.' :: rest2 =>
    let fracPart := rest2.takeWhile Char.isDigit
    let rest3 := rest2.dropWhile Char.isDigit
    if intPart.isEmpty && fracPart.isEmpty then Option.none
    else
      match parseExponent rest3 with
      | some e =>
        some (applyExp ((decDigitsVal intPart : ℚ)
          + (decDigitsVal fracPart : ℚ) / (10 : ℚ) ^ fracPart.length) e)
      | Option.none => Option.none
  | _ =>
    if intPart.isEmpty then Option.none
    else
      match parseExponent rest1 with
      | some e => some (applyExp (decDigitsVal intPart : ℚ) e)
      | Option.none => Option.none

/-- The unsigned numeral forms of `Number(string)` other than `Infinity`:
the radix-prefixed integer literals (0x, 0o, 0b, upper or lower case, no
sign, at least one digit, nothing trailing) or a decimal numeral. -/
def parseUnsigned (cs : List Char) : Option Rat :=
  match cs with
  | '0' :: x :: rest =>
    if x == 'x' || x == 'X' then
      if rest ≠ [] ∧ rest.all isHexDigitJS = true then
        some ((radixDigitsVal 16 rest : ℚ))
      else Option.none
    else if x == 'o' || x == 'O' then
      if rest ≠ [] ∧ rest.all isOctDigitJS = true then
        some ((radixDigitsVal 8 rest : ℚ))
      else Option.none
    else if x == 'b' || x == 'B' then
      if rest ≠ [] ∧ rest.all isBinDigitJS = true then
        some ((radixDigitsVal 2 rest : ℚ))
      else Option.none
    else parseDecimal cs
  | _ => parseDecimal cs

/-- Smallest magnitude at which rounding a value to the nearest double
overflows to infinity: the midpoint above the largest finite double, two to
the 1024 minus two to the 970, with the tie going to the even candidate,
infinity. -/
def DOUBLE_OVERFLOW : Rat := ((2 : ℚ) ^ 128) ^ 8 - ((2 : ℚ) ^ 97) ^ 10

/-- Largest magnitude that rounds to the double zero: the midpoint below the
smallest subnormal, one over two to the 1075, with the tie going to the even
candidate, zero. -/
def DOUBLE_TINY : Rat := 1 / (((2 : ℚ) ^ 215) ^ 5)

/-- JavaScript `Number(string)` followed by the `Number.isFinite` test, as
the `id` memo composes them.  Implements the string numeric grammar: trimmed
whitespace, empty remainder meaning `0`, an optionally signed decimal
numeral with fraction and exponent or `Infinity`, or an unsigned
radix-prefixed integer; `none` is NaN or an infinity.  The value is the
exact rational of the numeral; rounding to the nearest double is modelled
exactly where it decides a branch the screen observes: magnitudes at or
beyond `DOUBLE_OVERFLOW` become infinite (hence `none` after the
finiteness test) and magnitudes at or below `DOUBLE_TINY` round to the
double zero (hence `some 0`, which the truthiness guard catches).  Between
the thresholds rounding preserves being finite and nonzero, so it cannot
move an input across any branch of `load`. -/
def jsNumberFinite (s : String) : Option Rat :=
  let t := trimChars s.data
  let exact : Option Rat :=
    if t.isEmpty then some 0
    else
      match t with
      | '-' :: rest =>
        if rest = "Infinity".data then Option.none
        else (parseDecimal rest).map (fun v => -v)
      | '+' :: rest =>
        if rest = "Infinity".data then Option.none
        else parseDecimal rest
      | _ =>
        if t = "Infinity".data then Option.none
        else parseUnsigned t
  match exact with
  | some v =>
    if DOUBLE_OVERFLOW ≤ |v| then Option.none
    else if |v| ≤ DOUBLE_TINY then some 0
    else some v
  | Option.none => Option.none

/-- The `id` memo of the detail screen: a missing route parameter is NaN, a
string parameter goes through `Number`, and only finite results survive
(`null` otherwise). -/
def parseRouteId (raw : Option String) : Option Rat :=
  match raw with
  | some s => jsNumberFinite s
  | Option.none => Option.none

/-- What the detail screen `load` callback decides to do first. -/
inductive LoadAction where
  | errorState (message : String)
  | fetchProduct (id : Rat)
deriving DecidableEq, Repr

/-- First step of `load` on the detail screen: the truthiness guard `if (!id)`
(null or zero) sets the error state and returns before any fetch; otherwise
`getProductById(id)` is invoked. -/
def loadFirstStep (rawId : Option String) : LoadAction :=
  match parseRouteId rawId with
  | Option.none => LoadAction.errorState "ID produit invalide."
  | some n =>
    if n = 0 then LoadAction.errorState "ID produit invalide."
    else LoadAction.fetchProduct n

/-- Milliseconds until the request wrapper aborts the fetch:
`setTimeout(() => controller.abort(), 12_000)`. -/
def TIMEOUT_MS : Nat := 12000

/-- A response body as the wrapper sees it after the json/text decoding step:
a JSON object carrying an optional string `message` field, a string body, or
any other value (numbers, booleans, a failed parse). -/
inductive BodyVal where
  | obj (message : Option String)
  | strVal (s : String)
  | other
deriving DecidableEq, Repr

/-- Error message for a non-ok response, following the truthiness chain
`(object message) || (string body) || fallback`, where the fallback is
`Erreur API (status)`. -/
def apiMessage (status : Nat) (body : BodyVal) : String :=
  let fallback := "Erreur API (" ++ toString status ++ ")"
  match body with
  | BodyVal.obj (some m) => if m = "" then fallback else m
  | BodyVal.obj Option.none => fallback
  | BodyVal.strVal s => if s = "" then fallback else s
  | BodyVal.other => fallback

/-- Outcome of the underlying `fetch`: aborted by the timeout controller,
rejected with some error message, or completed with a response. -/
inductive HttpOutcome where
  | aborted
  | failed (message : String)
  | response (ok : Bool) (status : Nat) (body : BodyVal)
deriving DecidableEq, Repr

/-- Control flow of the `request` wrapper: an abort is rethrown as the
timeout message, other rejections propagate, a non-ok response raises the
computed API message, and an ok response returns its body. -/
def request (o : HttpOutcome) : Except String BodyVal :=
  match o with
  | HttpOutcome.aborted => Except.error "Temps de réponse dépassé (timeout)."
  | HttpOutcome.failed e => Except.error e
  | HttpOutcome.response ok status body =>
    if ok then Except.ok body else Except.error (apiMessage status body)

/-- The `getProducts` operation: `request` against the products path. -/
def getProducts (o : HttpOutcome) : Except String BodyVal := request o

/-- The `getProductById` operation: `request` against the product path for
the given id. -/
def getProductById (_id : Int) (o : HttpOutcome) : Except String BodyVal := request o

/-- Normalisation filling the optional fields with the empty string, the
value every use site substitutes for them. -/
def normalizeProduct (p : Product) : Product :=
  { p with title := some (p.title.getD ""), description := some (p.description.getD "") }

/-- Sample catalog item used by the concrete witnesses. -/
def pRedShirt : Product :=
  { id := 1, title := some "Red Shirt", description := some "A bright red shirt",
    category := "men", price := 20 }

/-- Sample catalog item used by the concrete witnesses. -/
def pBlueHat : Product :=
  { id := 2, title := some "Blue Hat", description := some "A blue hat",
    category := "women", price := 10 }

/-- Sample catalog item used by the concrete witnesses; shares its price with
`pBlueHat` to exercise stability. -/
def pGreenHat : Product :=
  { id := 3, title := some "Green Hat", description := some "A green hat",
    category := "women", price := 10 }

/-- Sample catalog used by the concrete witnesses. -/
def sampleProducts : List Product := [pRedShirt, pBlueHat, pGreenHat]

/-- A string of length zero is the empty string. -/
theorem string_eq_empty_of_length {s : String} (h : s.length = 0) : s = "" := by
  cases s with
  | mk data =>
    cases data with
    | nil => rfl
    | cons c cs => simp [String.length] at h

/-- Code-point comparison of a list with itself is zero. -/
theorem cmpChars_self : ∀ cs : List Char, cmpChars cs cs = 0
  | [] => rfl
  | c :: cs => by
    simp only [cmpChars, if_neg (lt_irrefl c)]
    exact cmpChars_self cs

/-- Swapping the arguments of the code-point comparison negates it. -/
theorem cmpChars_swap : ∀ as bs : List Char, cmpChars bs as = -(cmpChars as bs)
  | [], [] => rfl
  | [], _ :: _ => by simp [cmpChars]
  | _ :: _, [] => by simp [cmpChars]
  | a :: as, b :: bs => by
    rcases lt_trichotomy a b with h | h | h
    · simp [cmpChars, h, lt_asymm h]
    · subst h
      simp [cmpChars, lt_irrefl, cmpChars_swap as bs]
    · simp [cmpChars, h, lt_asymm h]

/-- The non-strict order induced by the code-point comparison is transitive. -/
theorem cmpChars_le_trans :
    ∀ x y z : List Char, cmpChars x y ≤ 0 → cmpChars y z ≤ 0 → cmpChars x z ≤ 0
  | [], _, [], _, _ => by simp [cmpChars]
  | [], _, _ :: _, _, _ => by simp [cmpChars]
  | _ :: _, [], _, h1, _ => by simp [cmpChars] at h1
  | _ :: _, _ :: _, [], _, h2 => by simp [cmpChars] at h2
  | a :: as, b :: bs, c :: cs, h1, h2 => by
    simp only [cmpChars] at h1 h2 ⊢
    rcases lt_trichotomy a b with hab | hab | hab
    · rcases lt_trichotomy b c with hbc | hbc | hbc
      · simp [hab.trans hbc]
      · subst hbc
        simp [hab]
      · simp [lt_asymm hbc, hbc] at h2
    · subst hab
      simp only [lt_irrefl, if_false] at h1
      rcases lt_trichotomy a c with hac | hac | hac
      · simp [hac]
      · subst hac
        simp only [lt_irrefl, if_false] at h2 ⊢
        exact cmpChars_le_trans as bs cs h1 h2
      · simp [lt_asymm hac, hac] at h2
    · simp [lt_asymm hab, hab] at h1

/-- Code-point comparison is zero only on equal lists. -/
theorem cmpChars_eq_zero : ∀ {x y : List Char}, cmpChars x y = 0 → x = y
  | [], [], _ => rfl
  | [], _ :: _, h => by simp [cmpChars] at h
  | _ :: _, [], h => by simp [cmpChars] at h
  | a :: as, b :: bs, h => by
    simp only [cmpChars] at h
    rcases lt_trichotomy a b with hab | hab | hab
    · simp [hab] at h
    · subst hab
      simp only [lt_irrefl, if_false] at h
      rw [cmpChars_eq_zero h]
    · simp [lt_asymm hab, hab] at h

/-- The `localeCompare` model is zero on equal strings. -/
theorem localeCompare_self (s : String) : localeCompare s s = 0 :=
  cmpChars_self s.data

/-- Swapping the arguments of `localeCompare` negates it. -/
theorem localeCompare_swap (a b : String) : localeCompare b a = -(localeCompare a b) :=
  cmpChars_swap a.data b.data

/-- The non-strict order induced by `localeCompare` is transitive. -/
theorem localeCompare_le_trans {a b c : String} :
    localeCompare a b ≤ 0 → localeCompare b c ≤ 0 → localeCompare a c ≤ 0 :=
  cmpChars_le_trans a.data b.data c.data

/-- The `localeCompare` model is zero only on equal strings. -/
theorem localeCompare_eq_zero {a b : String} (h : localeCompare a b = 0) : a = b := by
  cases a with
  | mk da =>
    cases b with
    | mk db => exact congrArg String.mk (cmpChars_eq_zero h)

/-- Stability of the sort model, filter form: the subsequence of elements
satisfying a predicate on which the comparator never strictly discriminates
is unchanged by sorting. -/
theorem jsSortBy_filter_eq (cmp : Product → Product → Int) (pred : Product → Bool)
    (hpred : ∀ a b, pred a = true → pred b = true → cmp a b ≤ 0)
    (l : List Product) :
    (jsSortBy cmp l).filter pred = l.filter pred := by
  have hc : (l.filter pred).Pairwise (fun a b => cmp a b ≤ 0) :=
    List.pairwise_of_forall_mem_list fun a ha b hb =>
      hpred a b (List.of_mem_filter ha) (List.of_mem_filter hb)
  have hsub : (l.filter pred).Sublist (jsSortBy cmp l) :=
    List.sublist_insertionSort hc (List.filter_sublist l)
  have hsub' : (l.filter pred).Sublist ((jsSortBy cmp l).filter pred) := by
    have h1 : ((l.filter pred).filter pred).Sublist ((jsSortBy cmp l).filter pred) :=
      hsub.filter pred
    rwa [List.filter_filter, show (fun a => pred a && pred a) = pred by
      funext a; cases pred a <;> rfl] at h1
  have hperm : ((jsSortBy cmp l).filter pred).Perm (l.filter pred) :=
    (List.perm_insertionSort _ l).filter pred
  exact (hsub'.eq_of_length hperm.length_eq.symm).symm

/-- Membership in the pipeline output coincides with membership in the
filter stage, whatever the sort key. -/
theorem mem_filteredAndSorted {products : List Product} {c : Criteria} {p : Product} :
    p ∈ filteredAndSorted products c ↔ p ∈ filteredBase products c := by
  rcases c with ⟨t, cat, sk⟩
  cases sk <;>
    simp [filteredAndSorted, jsSortBy, List.mem_insertionSort]

/-- C2: running the pipeline with criteria category `All`, empty text and sort
key `none` returns the full input collection in its original order. -/
theorem pipeline_identity_on_trivial_criteria (products : List Product) :
    filteredAndSorted products { text := "", category := "All", sortKey := SortKey.none }
      = products := by
  have hq : jsLower (jsTrim "") = "" := by decide
  have h0 : (("" : String).length == 0) = true := by decide
  show filteredBase products _ = products
  unfold filteredBase
  simp only [hq]
  rw [List.filter_eq_self]
  intro p _
  simp [matchesCategory, matchesQuery, h0]

/-- C7: the pipeline is a total function and treats an absent title or
description as the empty string: it commutes with the normalisation that
fills those fields in, and each predicate and comparator is unchanged by
replacing an absent field with the empty string. -/
theorem pipeline_total_and_missing_fields_as_empty :
    (∀ products c, filteredAndSorted (products.map normalizeProduct) c
        = (filteredAndSorted products c).map normalizeProduct)
      ∧ (∀ (q : String) (p : Product), matchesQuery q { p with title := Option.none }
          = matchesQuery q { p with title := some "" })
      ∧ (∀ (q : String) (p : Product), matchesQuery q { p with description := Option.none }
          = matchesQuery q { p with description := some "" })
      ∧ (∀ a b : Product, cmpTitleAsc { a with title := Option.none } b
          = cmpTitleAsc { a with title := some "" } b)
      ∧ (∀ a b : Product, cmpTitleDesc a { b with title := Option.none }
          = cmpTitleDesc a { b with title := some "" }) := by
  refine ⟨?_, fun _ _ => rfl, fun _ _ => rfl, fun _ _ => rfl, fun _ _ => rfl⟩
  intro products c
  have hbase : filteredBase (products.map normalizeProduct) c
      = (filteredBase products c).map normalizeProduct := by
    unfold filteredBase
    rw [List.filter_map]
    rfl
  rcases c with ⟨t, cat, sk⟩
  cases sk
  case none => exact hbase
  case price_asc =>
    show jsSortBy cmpPriceAsc _ = _
    rw [hbase]
    unfold jsSortBy
    exact (List.map_insertionSort _ _ normalizeProduct _ (fun a _ b _ => Iff.rfl)).symm
  case price_desc =>
    show jsSortBy cmpPriceDesc _ = _
    rw [hbase]
    unfold jsSortBy
    exact (List.map_insertionSort _ _ normalizeProduct _ (fun a _ b _ => Iff.rfl)).symm
  case title_asc =>
    show jsSortBy cmpTitleAsc _ = _
    rw [hbase]
    unfold jsSortBy
    exact (List.map_insertionSort _ _ normalizeProduct _ (fun a _ b _ => Iff.rfl)).symm
  case title_desc =>
    show jsSortBy cmpTitleDesc _ = _
    rw [hbase]
    unfold jsSortBy
    exact (List.map_insertionSort _ _ normalizeProduct _ (fun a _ b _ => Iff.rfl)).symm

/-- C8: both fetch operations surface failures as message strings: the abort
raised by the 12-second timer becomes the timeout message, a non-ok response
raises the computed API message instead of returning a value, and that
message is never empty. -/
theorem fetch_failures_surface_message_strings :
    TIMEOUT_MS = 12000
      ∧ getProducts HttpOutcome.aborted
          = Except.error "Temps de réponse dépassé (timeout)."
      ∧ (∀ id, getProductById id HttpOutcome.aborted
          = Except.error "Temps de réponse dépassé (timeout).")
      ∧ (∀ status body, getProducts (HttpOutcome.response false status body)
          = Except.error (apiMessage status body))
      ∧ (∀ id status body, getProductById id (HttpOutcome.response false status body)
          = Except.error (apiMessage status body))
      ∧ (∀ status body, apiMessage status body ≠ "") := by
  refine ⟨rfl, rfl, fun _ => rfl, fun _ _ => rfl, fun _ _ _ => rfl, ?_⟩
  intro status body
  have hfb : "Erreur API (" ++ toString status ++ ")" ≠ "" := by
    intro he
    have hl := congrArg String.length he
    have h12 : ("Erreur API (" : String).length = 12 := by decide
    have h1 : (")" : String).length = 1 := by decide
    simp [String.length_append, h12, h1] at hl
  cases body with
  | obj msg =>
    cases msg with
    | none => exact hfb
    | some m =>
      by_cases hm : m = ""
      · simpa [apiMessage, hm] using hfb
      · simp [apiMessage, hm]
  | strVal s =>
    by_cases hs : s = ""
    · simpa [apiMessage, hs] using hfb
    · simp [apiMessage, hs]
  | other => exact hfb

/-- C8 witness: the abort outcome of `getProductById` yields the timeout
message, and the API message for a 404 with an empty body is not empty. -/
theorem fetch_failures_witness :
    getProductById 3 HttpOutcome.aborted
        = Except.error "Temps de réponse dépassé (timeout)."
      ∧ apiMessage 404 (BodyVal.obj Option.none) ≠ "" :=
  ⟨fetch_failures_surface_message_strings.2.2.1 3,
    fetch_failures_surface_message_strings.2.2.2.2.2 404 (BodyVal.obj Option.none)⟩

/-- C9: the similar-products list contains only items of the fetched list
other than the displayed product, and never more than 12 of them. -/
theorem similar_list_excludes_current_and_is_capped (list : List Product) (productId : Int) :
    (∀ q ∈ similarList list productId, q.id ≠ productId ∧ q ∈ list)
      ∧ (similarList list productId).length ≤ 12 := by
  constructor
  · intro q hq
    have hq' : q ∈ list.filter (fun p => p.id != productId) := List.mem_of_mem_take hq
    refine ⟨?_, List.mem_of_mem_filter hq'⟩
    have h1 := List.of_mem_filter hq'
    simpa using h1
  · have h := List.length_take 12 (list.filter (fun p => p.id != productId))
    calc (similarList list productId).length
        = min 12 (list.filter (fun p => p.id != productId)).length := h
      _ ≤ 12 := min_le_left _ _

/-- C9 witness: on the sample catalog with displayed product 2, the item
`pGreenHat` of the similar list is not product 2 and comes from the list,
and the list is capped at 12. -/
theorem similar_list_witness :
    pGreenHat ∈ similarList sampleProducts 2
      ∧ (pGreenHat.id ≠ 2 ∧ pGreenHat ∈ sampleProducts)
      ∧ (similarList sampleProducts 2).length ≤ 12 :=
  ⟨by decide,
    (similar_list_excludes_current_and_is_capped sampleProducts 2).1 pGreenHat (by decide),
    (similar_list_excludes_current_and_is_capped sampleProducts 2).2⟩

/-- C10: when the route id is absent, not finite, or zero, `load` goes
straight to the error state with the invalid-id message and performs no
fetch; a fetch is only ever issued for a finite nonzero parsed id. -/
theorem route_id_guard (raw : Option String) :
    ((raw = Option.none ∨ parseRouteId raw = Option.none ∨ parseRouteId raw = some 0) →
        loadFirstStep raw = LoadAction.errorState "ID produit invalide.")
      ∧ (∀ n, loadFirstStep raw = LoadAction.fetchProduct n →
          parseRouteId raw = some n ∧ n ≠ 0) := by
  constructor
  · intro h
    rcases hp : parseRouteId raw with _ | n
    · simp [loadFirstStep, hp]
    · have hn : n = 0 := by
        rcases h with h | h | h
        · rw [h] at hp
          simp [parseRouteId] at hp
        · rw [h] at hp
          exact absurd hp (by simp)
        · rw [h] at hp
          exact (Option.some.inj hp).symm
      subst hn
      simp [loadFirstStep, hp]
  · intro n hn
    rcases hp : parseRouteId raw with _ | m
    · simp [loadFirstStep, hp] at hn
    · by_cases hm : m = 0
      · subst hm
        simp [loadFirstStep, hp] at hn
      · simp only [loadFirstStep, hp, if_neg hm] at hn
        have hmn : m = n := by
          cases hn
          rfl
        subst hmn
        exact ⟨rfl, hm⟩

set_option maxRecDepth 4000 in
/-- C10 witness: the non-numeric id string leads to the error state, while
the integer, fractional, exponent and hexadecimal numerals all lead to a
fetch with the corresponding finite nonzero id. -/
theorem route_id_guard_witness :
    loadFirstStep (some "abc") = LoadAction.errorState "ID produit invalide."
      ∧ (parseRouteId (some "7") = some 7 ∧ (7 : ℚ) ≠ 0)
      ∧ (parseRouteId (some "3.5") = some (7 / 2) ∧ (7 / 2 : ℚ) ≠ 0)
      ∧ (parseRouteId (some "1e2") = some 100 ∧ (100 : ℚ) ≠ 0)
      ∧ (parseRouteId (some "0x1A") = some 26 ∧ (26 : ℚ) ≠ 0) :=
  ⟨(route_id_guard (some "abc")).1 (Or.inr (Or.inl (by decide))),
    (route_id_guard (some "7")).2 7 (by with_unfolding_all decide),
    (route_id_guard (some "3.5")).2 (7 / 2) (by with_unfolding_all decide),
    (route_id_guard (some "1e2")).2 100 (by with_unfolding_all decide),
    (route_id_guard (some "0x1A")).2 26 (by with_unfolding_all decide)⟩

/-- C1: every item of the pipeline output matches the selected category (or
the category is the `All` sentinel) and the trimmed-lowercased search text is
empty or a substring of its lowercased title or description; a category
matching no item yields the empty list. -/
theorem output_satisfies_filter_predicates (products : List Product) (c : Criteria) :
    (∀ p ∈ filteredAndSorted products c,
        (c.category = "All" ∨ p.category = c.category)
          ∧ (jsLower (jsTrim c.text) = ""
              ∨ jsIncludes (jsLower (p.title.getD "")) (jsLower (jsTrim c.text)) = true
              ∨ jsIncludes (jsLower (p.description.getD "")) (jsLower (jsTrim c.text)) = true))
      ∧ (c.category ≠ "All" → (∀ p ∈ products, p.category ≠ c.category) →
          filteredAndSorted products c = []) := by
  rcases c with ⟨t, cat, sk⟩
  constructor
  · intro p hp
    rw [mem_filteredAndSorted] at hp
    unfold filteredBase at hp
    rw [List.mem_filter, Bool.and_eq_true] at hp
    obtain ⟨-, hcat, hq⟩ := hp
    refine ⟨by simpa [matchesCategory] using hcat, ?_⟩
    have hq' : (jsLower (jsTrim t)).length = 0
        ∨ jsIncludes (jsLower (p.title.getD "")) (jsLower (jsTrim t)) = true
        ∨ jsIncludes (jsLower (p.description.getD "")) (jsLower (jsTrim t)) = true := by
      simpa [matchesQuery, or_assoc] using hq
    rcases hq' with h | h | h
    · exact Or.inl (string_eq_empty_of_length h)
    · exact Or.inr (Or.inl h)
    · exact Or.inr (Or.inr h)
  · intro h1 h2
    have hbase : filteredBase products ⟨t, cat, sk⟩ = [] := by
      unfold filteredBase
      rw [List.filter_eq_nil_iff]
      intro p hp
      simp [matchesCategory, h1, h2 p hp]
    cases sk <;> simp [filteredAndSorted, hbase, jsSortBy, List.insertionSort]

/-- C1 witness: searching the sample catalog for `red` under `All` keeps the
red shirt, which satisfies both predicates; the category `nonexistent`
matches no item and yields the empty list. -/
theorem output_satisfies_filter_predicates_witness :
    pRedShirt ∈ filteredAndSorted sampleProducts ⟨"red", "All", SortKey.none⟩
      ∧ (("All" : String) = "All" ∨ pRedShirt.category = "All")
      ∧ (jsLower (jsTrim "red") = ""
          ∨ jsIncludes (jsLower (pRedShirt.title.getD "")) (jsLower (jsTrim "red")) = true
          ∨ jsIncludes (jsLower (pRedShirt.description.getD "")) (jsLower (jsTrim "red")) = true)
      ∧ filteredAndSorted sampleProducts ⟨"", "nonexistent", SortKey.none⟩ = [] :=
  ⟨by decide,
    ((output_satisfies_filter_predicates sampleProducts ⟨"red", "All", SortKey.none⟩).1
      pRedShirt (by decide)).1,
    ((output_satisfies_filter_predicates sampleProducts ⟨"red", "All", SortKey.none⟩).1
      pRedShirt (by decide)).2,
    (output_satisfies_filter_predicates sampleProducts ⟨"", "nonexistent", SortKey.none⟩).2
      (by decide) (by decide)⟩

/-- C6: the filter stage keeps a subsequence of the input, the sort stage is
a permutation of the filter stage (membership with multiplicity is
unchanged, so no item is fabricated or duplicated), and with the `All`
sentinel the category conjunct excludes nothing: filtering reduces to the
text predicate alone. -/
theorem pipeline_output_is_subsequence_permutation (products : List Product) (c : Criteria) :
    (filteredBase products c).Sublist products
      ∧ (filteredAndSorted products c).Perm (filteredBase products c)
      ∧ (c.category = "All" →
          filteredBase products c
            = products.filter (matchesQuery (jsLower (jsTrim c.text)))) := by
  refine ⟨List.filter_sublist products, ?_, ?_⟩
  · rcases c with ⟨t, cat, sk⟩
    cases sk
    case none => exact List.Perm.refl _
    case price_asc => exact List.perm_insertionSort _ _
    case price_desc => exact List.perm_insertionSort _ _
    case title_asc => exact List.perm_insertionSort _ _
    case title_desc => exact List.perm_insertionSort _ _
  · intro hAll
    unfold filteredBase
    apply List.filter_congr
    intro p _
    simp [matchesCategory, hAll]

/-- C6 witness: with the `All` category and text `hat` under a price sort on
the sample catalog, the three conjuncts hold at a concrete input. -/
theorem pipeline_output_is_subsequence_permutation_witness :
    (filteredBase sampleProducts ⟨"hat", "All", SortKey.price_asc⟩).Sublist sampleProducts
      ∧ (filteredAndSorted sampleProducts ⟨"hat", "All", SortKey.price_asc⟩).Perm
          (filteredBase sampleProducts ⟨"hat", "All", SortKey.price_asc⟩)
      ∧ filteredBase sampleProducts ⟨"hat", "All", SortKey.price_asc⟩
          = sampleProducts.filter (matchesQuery (jsLower (jsTrim "hat"))) :=
  ⟨(pipeline_output_is_subsequence_permutation sampleProducts
      ⟨"hat", "All", SortKey.price_asc⟩).1,
    (pipeline_output_is_subsequence_permutation sampleProducts
      ⟨"hat", "All", SortKey.price_asc⟩).2.1,
    (pipeline_output_is_subsequence_permutation sampleProducts
      ⟨"hat", "All", SortKey.price_asc⟩).2.2 rfl⟩

/-- Membership after one `Set` insertion. -/
theorem mem_addCat {acc : List String} {c x : String} :
    x ∈ addCat acc c ↔ x ∈ acc ∨ x = c := by
  unfold addCat
  by_cases h : c ∈ acc
  · rw [if_pos h]
    constructor
    · exact Or.inl
    · rintro (hx | rfl)
      · exact hx
      · exact h
  · rw [if_neg h]
    simp [List.mem_append]

/-- Membership in the category `Set` fold: the accumulator, or a non-empty
category of some product of the list. -/
theorem mem_categorySet_aux :
    ∀ (l : List Product) (acc : List String) (x : String),
      x ∈ l.foldl (fun acc p => if p.category = "" then acc else addCat acc p.category) acc
        ↔ x ∈ acc ∨ (x ≠ "" ∧ ∃ p ∈ l, p.category = x)
  | [], acc, x => by simp
  | p :: l, acc, x => by
    rw [List.foldl_cons, mem_categorySet_aux l _ x]
    by_cases hp : p.category = ""
    · rw [if_pos hp]
      constructor
      · rintro (h | ⟨hx, q, hq, hqx⟩)
        · exact Or.inl h
        · exact Or.inr ⟨hx, q, List.mem_cons_of_mem p hq, hqx⟩
      · rintro (h | ⟨hx, q, hq, hqx⟩)
        · exact Or.inl h
        · rcases List.mem_cons.mp hq with rfl | hq'
          · exact absurd (hqx.symm.trans hp) hx
          · exact Or.inr ⟨hx, q, hq', hqx⟩
    · rw [if_neg hp, mem_addCat]
      constructor
      · rintro ((h | rfl) | ⟨hx, q, hq, hqx⟩)
        · exact Or.inl h
        · exact Or.inr ⟨hp, p, List.mem_cons_self p l, rfl⟩
        · exact Or.inr ⟨hx, q, List.mem_cons_of_mem p hq, hqx⟩
      · rintro (h | ⟨hx, q, hq, hqx⟩)
        · exact Or.inl (Or.inl h)
        · rcases List.mem_cons.mp hq with rfl | hq'
          · exact Or.inl (Or.inr hqx.symm)
          · exact Or.inr ⟨hx, q, hq', hqx⟩

/-- One `Set` insertion preserves distinctness. -/
theorem nodup_addCat {acc : List String} (h : acc.Nodup) (c : String) :
    (addCat acc c).Nodup := by
  unfold addCat
  by_cases hc : c ∈ acc
  · rwa [if_pos hc]
  · rw [if_neg hc]
    simp [List.nodup_append, h, hc]

/-- The category `Set` fold preserves distinctness. -/
theorem nodup_categorySet_aux :
    ∀ (l : List Product) (acc : List String), acc.Nodup →
      (l.foldl (fun acc p => if p.category = "" then acc else addCat acc p.category) acc).Nodup
  | [], _, h => h
  | p :: l, acc, h => by
    rw [List.foldl_cons]
    apply nodup_categorySet_aux l
    by_cases hp : p.category = ""
    · rwa [if_pos hp]
    · rw [if_neg hp]
      exact nodup_addCat h _

/-- C5: the derived category list starts with the `All` sentinel, and its
tail lists each distinct non-empty category value of the input exactly once
(distinct, and nothing else is present) in strictly increasing
`localeCompare` order. -/
theorem categories_sentinel_distinct_sorted (products : List Product) :
    ∃ rest, categories products = "All" :: rest
      ∧ rest.Nodup
      ∧ rest.Pairwise (fun a b => localeCompare a b < 0)
      ∧ (∀ x, x ∈ rest ↔ x ≠ "" ∧ ∃ p ∈ products, p.category = x) := by
  have hnd : ((categorySet products).insertionSort
      (fun a b => localeCompare a b ≤ 0)).Nodup :=
    (List.perm_insertionSort _ _).nodup_iff.mpr
      (nodup_categorySet_aux products [] List.nodup_nil)
  refine ⟨(categorySet products).insertionSort (fun a b => localeCompare a b ≤ 0),
    rfl, hnd, ?_, ?_⟩
  · haveI : IsTotal String (fun a b => localeCompare a b ≤ 0) := ⟨fun a b => by
      rcases le_or_lt (localeCompare a b) 0 with h | h
      · exact Or.inl h
      · refine Or.inr ?_
        rw [localeCompare_swap]
        omega⟩
    haveI : IsTrans String (fun a b => localeCompare a b ≤ 0) :=
      ⟨fun _ _ _ => localeCompare_le_trans⟩
    have hs := List.sorted_insertionSort (fun a b => localeCompare a b ≤ 0)
      (categorySet products)
    exact (hs.and hnd).imp fun h =>
      lt_of_le_of_ne h.1 fun he => h.2 (localeCompare_eq_zero he)
  · intro x
    rw [List.mem_insertionSort]
    unfold categorySet
    simpa using mem_categorySet_aux products [] x

/-- C5 witness: the sample catalog derives the list `All`, `men`, `women`,
and the theorem instantiates on it. -/
theorem categories_sentinel_witness :
    categories sampleProducts = ["All", "men", "women"]
      ∧ ∃ rest, categories sampleProducts = "All" :: rest
          ∧ rest.Nodup
          ∧ rest.Pairwise (fun a b => localeCompare a b < 0)
          ∧ (∀ x, x ∈ rest ↔ x ≠ "" ∧ ∃ p ∈ sampleProducts, p.category = x) :=
  ⟨by decide, categories_sentinel_distinct_sorted sampleProducts⟩

/-- C3: the sort is stable: for any fixed sort-key value, the subsequence of
output items carrying that key equals the subsequence of filtered items
carrying it, so equal-key items retain their pre-sort relative order. -/
theorem sort_is_stable (products : List Product) (c : Criteria) :
    (∀ v : Int, (c.sortKey = SortKey.price_asc ∨ c.sortKey = SortKey.price_desc) →
        (filteredAndSorted products c).filter (fun p => p.price == v)
          = (filteredBase products c).filter (fun p => p.price == v))
      ∧ (∀ t : String, (c.sortKey = SortKey.title_asc ∨ c.sortKey = SortKey.title_desc) →
          (filteredAndSorted products c).filter (fun p => p.title.getD "" == t)
            = (filteredBase products c).filter (fun p => p.title.getD "" == t)) := by
  constructor
  · intro v hsk
    rcases hsk with h | h
    · simp only [filteredAndSorted, h]
      exact jsSortBy_filter_eq cmpPriceAsc _ (fun a b ha hb => by
        simp only [beq_iff_eq] at ha hb
        simp only [cmpPriceAsc, ha, hb]
        omega) _
    · simp only [filteredAndSorted, h]
      exact jsSortBy_filter_eq cmpPriceDesc _ (fun a b ha hb => by
        simp only [beq_iff_eq] at ha hb
        simp only [cmpPriceDesc, ha, hb]
        omega) _
  · intro t hsk
    rcases hsk with h | h
    · simp only [filteredAndSorted, h]
      exact jsSortBy_filter_eq cmpTitleAsc _ (fun a b ha hb => by
        simp only [beq_iff_eq] at ha hb
        simp only [cmpTitleAsc, ha, hb]
        simp [localeCompare_self]) _
    · simp only [filteredAndSorted, h]
      exact jsSortBy_filter_eq cmpTitleDesc _ (fun a b ha hb => by
        simp only [beq_iff_eq] at ha hb
        simp only [cmpTitleDesc, ha, hb]
        simp [localeCompare_self]) _

/-- C3 witness: on the sample catalog, whose two hats share the price 10,
sorting by ascending price keeps the equal-price items in filtered order. -/
theorem sort_is_stable_witness :
    (filteredAndSorted sampleProducts ⟨"", "All", SortKey.price_asc⟩).filter
        (fun p => p.price == 10)
      = (filteredBase sampleProducts ⟨"", "All", SortKey.price_asc⟩).filter
        (fun p => p.price == 10) :=
  (sort_is_stable sampleProducts ⟨"", "All", SortKey.price_asc⟩).1 10 (Or.inl rfl)

/-- Ascending and descending price sorts of a list with pairwise distinct
prices are exact reverses of one another. -/
theorem jsSortBy_price_asc_reverse_desc (l : List Product)
    (hdist : l.Pairwise (fun a b => a.price ≠ b.price)) :
    jsSortBy cmpPriceAsc l = (jsSortBy cmpPriceDesc l).reverse := by
  haveI : IsTotal Product (fun a b => cmpPriceAsc a b ≤ 0) :=
    ⟨fun a b => by simp only [cmpPriceAsc]; omega⟩
  haveI : IsTrans Product (fun a b => cmpPriceAsc a b ≤ 0) :=
    ⟨fun a b c ha hb => by simp only [cmpPriceAsc] at ha hb ⊢; omega⟩
  haveI : IsTotal Product (fun a b => cmpPriceDesc a b ≤ 0) :=
    ⟨fun a b => by simp only [cmpPriceDesc]; omega⟩
  haveI : IsTrans Product (fun a b => cmpPriceDesc a b ≤ 0) :=
    ⟨fun a b c ha hb => by simp only [cmpPriceDesc] at ha hb ⊢; omega⟩
  haveI : IsAntisymm Product (fun a b : Product => a.price < b.price) :=
    ⟨fun _ _ h h' => ((lt_asymm h) h').elim⟩
  have s1 : (jsSortBy cmpPriceAsc l).Pairwise (fun a b => cmpPriceAsc a b ≤ 0) :=
    List.sorted_insertionSort _ l
  have s2 : (jsSortBy cmpPriceDesc l).Pairwise (fun a b => cmpPriceDesc a b ≤ 0) :=
    List.sorted_insertionSort _ l
  have p1 : (jsSortBy cmpPriceAsc l).Perm l := List.perm_insertionSort _ l
  have p2 : (jsSortBy cmpPriceDesc l).Perm l := List.perm_insertionSort _ l
  have d1 : (jsSortBy cmpPriceAsc l).Pairwise (fun a b => a.price ≠ b.price) :=
    (p1.pairwise_iff (fun h => Ne.symm h)).mpr hdist
  have d2 : (jsSortBy cmpPriceDesc l).Pairwise (fun a b => a.price ≠ b.price) :=
    (p2.pairwise_iff (fun h => Ne.symm h)).mpr hdist
  have st1 : (jsSortBy cmpPriceAsc l).Pairwise (fun a b : Product => a.price < b.price) :=
    (s1.and d1).imp fun h => by
      have h1 := h.1
      have h2 := h.2
      simp only [cmpPriceAsc] at h1
      omega
  have st2 : (jsSortBy cmpPriceDesc l).Pairwise (fun a b : Product => b.price < a.price) :=
    (s2.and d2).imp fun h => by
      have h1 := h.1
      have h2 := h.2
      simp only [cmpPriceDesc] at h1
      omega
  have st2' : ((jsSortBy cmpPriceDesc l).reverse).Pairwise
      (fun a b : Product => a.price < b.price) :=
    List.pairwise_reverse.mpr st2
  have hperm : (jsSortBy cmpPriceAsc l).Perm ((jsSortBy cmpPriceDesc l).reverse) :=
    p1.trans ((List.reverse_perm _).trans p2).symm
  exact List.eq_of_perm_of_sorted hperm st1 st2'

/-- C4: on a filtered collection with no duplicate prices, the ascending and
descending price sorts of the pipeline are exact reverses of one another. -/
theorem price_sorts_are_exact_reverses (products : List Product) (tx cat : String)
    (hdist : (filteredBase products ⟨tx, cat, SortKey.price_asc⟩).Pairwise
        (fun a b => a.price ≠ b.price)) :
    filteredAndSorted products ⟨tx, cat, SortKey.price_asc⟩
      = (filteredAndSorted products ⟨tx, cat, SortKey.price_desc⟩).reverse := by
  show jsSortBy cmpPriceAsc (filteredBase products ⟨tx, cat, SortKey.price_asc⟩)
      = (jsSortBy cmpPriceDesc (filteredBase products ⟨tx, cat, SortKey.price_desc⟩)).reverse
  have hb : filteredBase products ⟨tx, cat, SortKey.price_desc⟩
      = filteredBase products ⟨tx, cat, SortKey.price_asc⟩ := rfl
  rw [hb]
  exact jsSortBy_price_asc_reverse_desc _ hdist

/-- C4 witness: the shirt-and-hat catalog has distinct prices, and its
ascending price order is the reverse of its descending order. -/
theorem price_sorts_reverse_witness :
    (filteredBase [pRedShirt, pBlueHat] ⟨"", "All", SortKey.price_asc⟩).Pairwise
        (fun a b => a.price ≠ b.price)
      ∧ filteredAndSorted [pRedShirt, pBlueHat] ⟨"", "All", SortKey.price_asc⟩
          = (filteredAndSorted [pRedShirt, pBlueHat] ⟨"", "All", SortKey.price_desc⟩).reverse :=
  ⟨by decide, price_sorts_are_exact_reverses [pRedShirt, pBlueHat] "" "All" (by decide)⟩

end FakeStore
